import Mathlib

/-!
Shallow embedding of the `linear_regression_numpy` notebook
(`notebooks/linear_regression_numpy.ipynb`).

The notebook computes with numpy floating-point arrays; we model the
numerical content over the exact reals `ℝ`, with an `R × C` array embedded
as `Matrix (Fin R) (Fin C) ℝ` and a length-`N` vector as `Fin N → ℝ`.

Embedded functions, in notebook order:
* `normalize`   — `(X - np.mean(X, 0)) / np.std(X, 0)` with the statistics
  returned alongside (`np.std` uses the population denominator `N`);
* `add_bias`    — `np.c_[np.ones(R), X]`;
* `normal_equation` — `np.linalg.inv(X.T @ X) @ X.T @ y`;
* `mean_squared_error`, `r2_score` — the evaluation cell;
* `genfromtxt`  — the data-loading cell (`np.genfromtxt(..., skip_header=1)`),
  modelled over pre-tokenised fields, `none` standing for numpy's `nan`;
* `predict_new` — the prediction cell `(new_house - mean) / std`, bias, dot
  product, including numpy's length-1 broadcasting of rank-1 operands.
-/

open Matrix

namespace LinRegNp

noncomputable section

/-- Column mean, `np.mean(X, axis=0)` at column `j`. -/
def colMean {R C : ℕ} (X : Matrix (Fin R) (Fin C) ℝ) (j : Fin C) : ℝ :=
  (∑ i, X i j) / R

/-- Population variance of column `j` (denominator `R`, numpy's `ddof=0`). -/
def colVar {R C : ℕ} (X : Matrix (Fin R) (Fin C) ℝ) (j : Fin C) : ℝ :=
  (∑ i, (X i j - colMean X j) ^ 2) / R

/-- Population standard deviation of column `j`, `np.std(X, axis=0)`. -/
def colStd {R C : ℕ} (X : Matrix (Fin R) (Fin C) ℝ) (j : Fin C) : ℝ :=
  Real.sqrt (colVar X j)

/-- The notebook's `normalize`: returns `((X - mean) / std, mean, std)`
with `mean`/`std` taken per column. -/
def normalize {R C : ℕ} (X : Matrix (Fin R) (Fin C) ℝ) :
    Matrix (Fin R) (Fin C) ℝ × (Fin C → ℝ) × (Fin C → ℝ) :=
  (Matrix.of fun i j => (X i j - colMean X j) / colStd X j,
   fun j => colMean X j,
   fun j => colStd X j)

/-- The notebook's `add_bias`: `np.c_[np.ones(X.shape[0]), X]` — prepend a
column of ones. -/
def add_bias {R C : ℕ} (X : Matrix (Fin R) (Fin C) ℝ) :
    Matrix (Fin R) (Fin (C + 1)) ℝ :=
  Matrix.of fun i => Fin.cons 1 (X i)

/-- The notebook's `normal_equation`: `np.linalg.inv(X.T @ X) @ X.T @ y`. -/
def normal_equation {R K : ℕ} (X : Matrix (Fin R) (Fin K) ℝ)
    (y : Fin R → ℝ) : Fin K → ℝ :=
  ((Xᵀ * X)⁻¹ * Xᵀ) *ᵥ y

/-- The notebook's `mean_squared_error`: `np.mean((y_true - y_pred) ** 2)`. -/
def mean_squared_error {N : ℕ} (y_true y_pred : Fin N → ℝ) : ℝ :=
  (∑ i, (y_true i - y_pred i) ^ 2) / N

/-- Residual sum of squares `ss_res` from the notebook's `r2_score`. -/
def ss_res {N : ℕ} (y_true y_pred : Fin N → ℝ) : ℝ :=
  ∑ i, (y_true i - y_pred i) ^ 2

/-- Total sum of squares `ss_tot` from the notebook's `r2_score`
(`np.sum((y_true - np.mean(y_true)) ** 2)`). -/
def ss_tot {N : ℕ} (y_true : Fin N → ℝ) : ℝ :=
  ∑ i, (y_true i - (∑ k, y_true k) / N) ^ 2

/-- The notebook's `r2_score`: `1 - ss_res / ss_tot`. -/
def r2_score {N : ℕ} (y_true y_pred : Fin N → ℝ) : ℝ :=
  1 - ss_res y_true y_pred / ss_tot y_true

/-- Sum of squared entries of a vector; `‖v‖²` written as a plain sum. -/
def sumSq {n : ℕ} (v : Fin n → ℝ) : ℝ :=
  ∑ i, v i ^ 2

/-! ### Data-loading cell

`data = np.genfromtxt("../data/housing.csv", delimiter=",", skip_header=1)`.
We model a text file after tokenisation at the delimiter: a line is a list
of fields, each field either a numeric literal or malformed text.
`np.genfromtxt` skips the header, converts each remaining field with its
float converter — a field that fails to convert becomes `nan` (modelled as
`none`), without raising — and raises only when a line's field count
differs from the first data line's, or when the file cannot be opened. -/

/-- One comma-separated field of the CSV file: a numeric literal (carrying
its value) or malformed text that does not parse as a number. -/
inductive Field where
  | num (q : ℝ)
  | malformed
  deriving DecidableEq

/-- numpy's float conversion of one field: a numeric field yields its
value, a malformed field yields `nan` (modelled as `none`). -/
def fieldValue : Field → Option ℝ
  | .num q => some q
  | .malformed => none

/-- Errors the loading cell can actually raise. -/
inductive LoadError where
  | notFound
  | columnMismatch
  deriving DecidableEq

/-- The loading cell: `none` models an absent file (numpy raises
`FileNotFoundError` / `OSError`); otherwise the header line is skipped
(`skip_header=1`), a line whose field count differs from the first data
line's raises `ValueError`, and every surviving field is converted by
`fieldValue` — malformed fields become `nan`, never an error. -/
def genfromtxt (file : Option (List (List Field))) :
    Except LoadError (List (List (Option ℝ))) :=
  match file with
  | none => .error .notFound
  | some lines =>
    let rows := lines.drop 1
    let ncols := (rows.headD []).length
    if rows.all fun r => r.length = ncols then
      .ok (rows.map fun r => r.map fieldValue)
    else
      .error .columnMismatch

/-! ### Prediction cell

```
new_house_norm = (new_house - mean) / std
new_house_bias = add_bias(new_house_norm)
predicted_price = new_house_bias @ theta
```

`new_house` has shape `(1, F')` while `mean`, `std` have shape `(F,)`.
We model the single row as a `List ℝ`.  numpy's broadcasting of the
elementwise operations: equal lengths act pointwise; a length-1 operand is
stretched to the other's length; any other combination raises
`ValueError` (modelled as `none`).  The final `@` requires exactly
matching lengths. -/

/-- Elementwise binary operation with numpy rank-1 broadcasting. -/
def broadcastOp (f : ℝ → ℝ → ℝ) (a b : List ℝ) : Option (List ℝ) :=
  if a.length = b.length then
    some (List.zipWith f a b)
  else
    match a, b with
    | [x], b => some (b.map fun v => f x v)
    | a, [v] => some (a.map fun x => f x v)
    | _, _ => none

/-- The prediction cell applied to one new raw feature row: centre by the
stored `mean`, scale by the stored `std` (both with broadcasting), prepend
the bias `1`, and take the dot product with `theta` (which demands an
exact length match). -/
def predict_new (mean std theta : List ℝ) (new_house : List ℝ) : Option ℝ := do
  let centered ← broadcastOp (fun x v => x - v) new_house mean
  let norm ← broadcastOp (fun x v => x / v) centered std
  let biased := 1 :: norm
  if biased.length = theta.length then
    some (List.zipWith (fun x v => x * v) biased theta).sum
  else
    none

end

/-! ### Helper lemmas -/

theorem colVar_nonneg {R C : ℕ} (X : Matrix (Fin R) (Fin C) ℝ) (j : Fin C) :
    0 ≤ colVar X j :=
  div_nonneg (Finset.sum_nonneg fun _ _ => sq_nonneg _) (Nat.cast_nonneg R)

theorem ss_res_nonneg {N : ℕ} (y_true y_pred : Fin N → ℝ) :
    0 ≤ ss_res y_true y_pred :=
  Finset.sum_nonneg fun _ _ => sq_nonneg _

theorem ss_tot_nonneg {N : ℕ} (y_true : Fin N → ℝ) : 0 ≤ ss_tot y_true :=
  Finset.sum_nonneg fun _ _ => sq_nonneg _

theorem sumSq_nonneg {n : ℕ} (v : Fin n → ℝ) : 0 ≤ sumSq v :=
  Finset.sum_nonneg fun _ _ => sq_nonneg _

theorem sumSq_eq_dotProduct {n : ℕ} (v : Fin n → ℝ) : sumSq v = v ⬝ᵥ v := by
  simp [sumSq, dotProduct, sq]

theorem sumSq_add {n : ℕ} (a b : Fin n → ℝ) :
    sumSq (a + b) = sumSq a + 2 * (a ⬝ᵥ b) + sumSq b := by
  simp only [sumSq_eq_dotProduct, dotProduct_add, add_dotProduct]
  rw [dotProduct_comm b a]
  ring

/-! ### Claims -/

/-- C2: `normalize X` returns `(X_normalized, mean, std)` where `mean j` is
the arithmetic mean of column `j`, `std j` is the population standard
deviation of column `j` (denominator `R`, not `R - 1`), and
`X_normalized i j = (X i j - mean j) / std j` for every entry. -/
theorem C2_normalize_contract {R C : ℕ} (X : Matrix (Fin R) (Fin C) ℝ)
    (i : Fin R) (j : Fin C) :
    (normalize X).2.1 j = (∑ r, X r j) / R ∧
    (normalize X).2.2 j =
      Real.sqrt ((∑ r, (X r j - (∑ r', X r' j) / R) ^ 2) / R) ∧
    (normalize X).1 i j = (X i j - (normalize X).2.1 j) / (normalize X).2.2 j := by
  refine ⟨rfl, ?_, rfl⟩
  simp only [normalize, colStd, colVar, colMean]

/-- C4: `add_bias X` has first column identically `1` and column `j + 1`
equal to column `j` of `X`, for every row. -/
theorem C4_add_bias_columns {R C : ℕ} (X : Matrix (Fin R) (Fin C) ℝ) (i : Fin R) :
    add_bias X i 0 = 1 ∧ ∀ j : Fin C, add_bias X i j.succ = X i j := by
  constructor
  · rfl
  · intro j
    simp [add_bias]

/-- C3: on equal positive-length target vectors, the evaluator returns
`MSE = (1/N) * Σ (y_true i - y_pred i)²`, and when the true targets have
nonzero variance,
`R² = 1 - Σ (y_true i - y_pred i)² / Σ (y_true i - mean y_true)²`. -/
theorem C3_evaluator_formulas {N : ℕ} (y_true y_pred : Fin N → ℝ)
    (hN : 0 < N) (hvar : ss_tot y_true ≠ 0) :
    mean_squared_error y_true y_pred =
      (1 / (N : ℝ)) * ∑ i, (y_true i - y_pred i) ^ 2 ∧
    r2_score y_true y_pred =
      1 - (∑ i, (y_true i - y_pred i) ^ 2) /
          (∑ i, (y_true i - (∑ k, y_true k) / N) ^ 2) := by
  constructor
  · rw [mean_squared_error, one_div, inv_mul_eq_div]
  · rfl

theorem C3_evaluator_formulas_witness :
    (0 < 2 ∧ ss_tot ![(0 : ℝ), 2] ≠ 0) ∧
    (mean_squared_error ![(0 : ℝ), 2] ![1, 1] =
        (1 / ((2 : ℕ) : ℝ)) * ∑ i, (![(0 : ℝ), 2] i - ![(1 : ℝ), 1] i) ^ 2 ∧
      r2_score ![(0 : ℝ), 2] ![1, 1] =
        1 - (∑ i, (![(0 : ℝ), 2] i - ![(1 : ℝ), 1] i) ^ 2) /
            (∑ i, (![(0 : ℝ), 2] i - (∑ k, ![(0 : ℝ), 2] k) / ((2 : ℕ) : ℝ)) ^ 2)) := by
  have htot : ss_tot ![(0 : ℝ), 2] ≠ 0 := by
    simp only [ss_tot, Fin.sum_univ_two]
    norm_num
  exact ⟨⟨by norm_num, htot⟩,
    C3_evaluator_formulas ![(0 : ℝ), 2] ![1, 1] (by norm_num) htot⟩

/-- C5: with a positive number of samples and true targets of nonzero
variance, `r2_score` is at most `1`, and it equals `1` exactly when every
prediction equals the corresponding true target. -/
theorem C5_r2_range {N : ℕ} (y_true y_pred : Fin N → ℝ)
    (hN : 0 < N) (hvar : ss_tot y_true ≠ 0) :
    r2_score y_true y_pred ≤ 1 ∧
      (r2_score y_true y_pred = 1 ↔ ∀ i, y_pred i = y_true i) := by
  have hres := ss_res_nonneg y_true y_pred
  have htot := ss_tot_nonneg y_true
  constructor
  · have hq : 0 ≤ ss_res y_true y_pred / ss_tot y_true := div_nonneg hres htot
    rw [r2_score]
    linarith
  · rw [r2_score, sub_eq_self, div_eq_zero_iff, or_iff_left hvar, ss_res,
      Finset.sum_eq_zero_iff_of_nonneg fun i _ => sq_nonneg _]
    constructor
    · intro h i
      have := h i (Finset.mem_univ i)
      have := pow_eq_zero_iff (two_ne_zero) |>.mp this
      linarith [sub_eq_zero.mp this]
    · intro h i _
      rw [h i, sub_self]
      ring

theorem C5_r2_range_witness :
    (0 < 2 ∧ ss_tot ![(0 : ℝ), 2] ≠ 0) ∧
    (r2_score ![(0 : ℝ), 2] ![1, 1] ≤ 1 ∧
      (r2_score ![(0 : ℝ), 2] ![1, 1] = 1 ↔
        ∀ i, ![(1 : ℝ), 1] i = ![(0 : ℝ), 2] i)) := by
  have htot : ss_tot ![(0 : ℝ), 2] ≠ 0 := by
    simp only [ss_tot, Fin.sum_univ_two]
    norm_num
  exact ⟨⟨by norm_num, htot⟩, C5_r2_range ![(0 : ℝ), 2] ![1, 1] (by norm_num) htot⟩

/-- C9: when column `j` has nonzero variance, the normalized matrix has
column mean exactly `0` and column (population) standard deviation exactly
`1` in exact arithmetic. -/
theorem C9_normalized_mean_zero_std_one {R C : ℕ} (X : Matrix (Fin R) (Fin C) ℝ)
    (j : Fin C) (hR : 0 < R) (hvar : colVar X j ≠ 0) :
    colMean (normalize X).1 j = 0 ∧ colStd (normalize X).1 j = 1 := by
  have hRne : (R : ℝ) ≠ 0 := Nat.cast_ne_zero.mpr hR.ne'
  have hvpos : 0 < colVar X j := lt_of_le_of_ne (colVar_nonneg X j) (Ne.symm hvar)
  have hs2 : colStd X j ^ 2 = colVar X j := Real.sq_sqrt hvpos.le
  have hsum : ∑ i, (X i j - colMean X j) = 0 := by
    rw [Finset.sum_sub_distrib, Finset.sum_const, Finset.card_univ,
      Fintype.card_fin, nsmul_eq_mul, colMean]
    field_simp
  have happ : ∀ i, (normalize X).1 i j = (X i j - colMean X j) / colStd X j :=
    fun i => rfl
  have hmean : colMean (normalize X).1 j = 0 := by
    rw [colMean]
    have hnum : ∑ i, (normalize X).1 i j = 0 := by
      simp only [happ]
      rw [← Finset.sum_div, hsum, zero_div]
    rw [hnum, zero_div]
  refine ⟨hmean, ?_⟩
  have hvar1 : colVar (normalize X).1 j = 1 := by
    rw [colVar, hmean]
    have hterm : ∀ i, ((normalize X).1 i j - 0) ^ 2 =
        (X i j - colMean X j) ^ 2 / colVar X j := by
      intro i
      rw [sub_zero, happ, div_pow, hs2]
    rw [Finset.sum_congr rfl fun i _ => hterm i, ← Finset.sum_div, div_right_comm]
    have hv : (∑ i, (X i j - colMean X j) ^ 2) / (R : ℝ) = colVar X j := rfl
    rw [hv, div_self hvar]
  rw [colStd, hvar1, Real.sqrt_one]

theorem C9_normalized_mean_zero_std_one_witness :
    (0 < 2 ∧ colVar !![(0 : ℝ); 2] 0 ≠ 0) ∧
    (colMean (normalize !![(0 : ℝ); 2]).1 0 = 0 ∧
      colStd (normalize !![(0 : ℝ); 2]).1 0 = 1) := by
  have hvar : colVar !![(0 : ℝ); 2] 0 ≠ 0 := by
    simp only [colVar, colMean, Fin.sum_univ_two]
    norm_num
  exact ⟨⟨by norm_num, hvar⟩,
    C9_normalized_mean_zero_std_one !![(0 : ℝ); 2] 0 (by norm_num) hvar⟩

/-- C10: when column `j` has nonzero variance, the returned statistics
invert the rescaling exactly:
`X_normalized i j * std j + mean j = X i j`. -/
theorem C10_normalize_round_trip {R C : ℕ} (X : Matrix (Fin R) (Fin C) ℝ)
    (i : Fin R) (j : Fin C) (hvar : colVar X j ≠ 0) :
    (normalize X).1 i j * (normalize X).2.2 j + (normalize X).2.1 j = X i j := by
  have hvpos : 0 < colVar X j := lt_of_le_of_ne (colVar_nonneg X j) (Ne.symm hvar)
  have hsne : colStd X j ≠ 0 := by
    rw [colStd]
    exact Real.sqrt_ne_zero'.mpr hvpos
  show (X i j - colMean X j) / colStd X j * colStd X j + colMean X j = X i j
  rw [div_mul_cancel₀ _ hsne, sub_add_cancel]

theorem C10_normalize_round_trip_witness :
    colVar !![(0 : ℝ); 2] 0 ≠ 0 ∧
    (normalize !![(0 : ℝ); 2]).1 0 0 * (normalize !![(0 : ℝ); 2]).2.2 0 +
        (normalize !![(0 : ℝ); 2]).2.1 0 = !![(0 : ℝ); 2] 0 0 := by
  have hvar : colVar !![(0 : ℝ); 2] 0 ≠ 0 := by
    simp only [colVar, colMean, Fin.sum_univ_two]
    norm_num
  exact ⟨hvar, C10_normalize_round_trip !![(0 : ℝ); 2] 0 0 hvar⟩

/-- C1: when the Gram matrix `Xᵀ·X` is invertible, `normal_equation X y`
equals `(Xᵀ·X)⁻¹ · Xᵀ · y`, and this vector is a least-squares coefficient
vector: its residual sum of squares is minimal among all coefficient
vectors. -/
theorem C1_normal_equation_least_squares {R K : ℕ} (X : Matrix (Fin R) (Fin K) ℝ)
    (y : Fin R → ℝ) (hinv : IsUnit (Xᵀ * X).det) :
    normal_equation X y = (Xᵀ * X)⁻¹ *ᵥ (Xᵀ *ᵥ y) ∧
      ∀ θ : Fin K → ℝ,
        sumSq (y - X *ᵥ normal_equation X y) ≤ sumSq (y - X *ᵥ θ) := by
  have hform : normal_equation X y = (Xᵀ * X)⁻¹ *ᵥ (Xᵀ *ᵥ y) := by
    rw [normal_equation, ← Matrix.mulVec_mulVec]
  refine ⟨hform, ?_⟩
  have hnorm : (Xᵀ * X) *ᵥ normal_equation X y = Xᵀ *ᵥ y := by
    rw [hform, Matrix.mulVec_mulVec, Matrix.mul_nonsing_inv _ hinv,
      Matrix.one_mulVec]
  have horth : Xᵀ *ᵥ (y - X *ᵥ normal_equation X y) = 0 := by
    rw [Matrix.mulVec_sub, Matrix.mulVec_mulVec, hnorm, sub_self]
  intro θ
  have hdecomp : y - X *ᵥ θ =
      (y - X *ᵥ normal_equation X y) + X *ᵥ (normal_equation X y - θ) := by
    rw [Matrix.mulVec_sub]
    abel
  have hmid : (y - X *ᵥ normal_equation X y) ⬝ᵥ
      (X *ᵥ (normal_equation X y - θ)) = 0 := by
    rw [dotProduct_mulVec, ← Matrix.mulVec_transpose, horth, zero_dotProduct]
  rw [hdecomp, sumSq_add, hmid]
  have hposq := sumSq_nonneg (X *ᵥ (normal_equation X y - θ))
  linarith

theorem C1_normal_equation_least_squares_witness :
    IsUnit ((!![(2 : ℝ)])ᵀ * !![(2 : ℝ)]).det ∧
    (normal_equation !![(2 : ℝ)] ![3] =
        ((!![(2 : ℝ)])ᵀ * !![(2 : ℝ)])⁻¹ *ᵥ ((!![(2 : ℝ)])ᵀ *ᵥ ![3]) ∧
      ∀ θ : Fin 1 → ℝ,
        sumSq (![3] - !![(2 : ℝ)] *ᵥ normal_equation !![(2 : ℝ)] ![3]) ≤
          sumSq (![3] - !![(2 : ℝ)] *ᵥ θ)) := by
  have hinv : IsUnit ((!![(2 : ℝ)])ᵀ * !![(2 : ℝ)]).det := by
    rw [isUnit_iff_ne_zero]
    norm_num [Matrix.det_fin_one, Matrix.mul_apply, Fin.sum_univ_one]
  exact ⟨hinv, C1_normal_equation_least_squares !![(2 : ℝ)] ![3] hinv⟩

/-- C6: evaluation of `normalize` on a matrix whose only column is
constant (zero variance). The code raises nothing: the column's standard
deviation is `0` and the entries are divided by it anyway — numpy
produces `nan` silently; in the real-division model the entries become
`0`. A triple is returned, contradicting the claimed
`DegenerateColumnError`. -/
theorem C6_normalize_zero_variance_returns :
    colStd !![(1 : ℝ); 1] 0 = 0 ∧
    (normalize !![(1 : ℝ); 1]).2.2 0 = 0 ∧
    (normalize !![(1 : ℝ); 1]).1 0 0 = 0 := by
  have hm : colMean !![(1 : ℝ); 1] 0 = 1 := by
    simp only [colMean, Fin.sum_univ_two]
    norm_num
  have hv : colVar !![(1 : ℝ); 1] 0 = 0 := by
    simp only [colVar, hm, Fin.sum_univ_two]
    norm_num
  have hs : colStd !![(1 : ℝ); 1] 0 = 0 := by
    rw [colStd, hv, Real.sqrt_zero]
  refine ⟨hs, hs, ?_⟩
  have happ : (normalize !![(1 : ℝ); 1]).1 0 0 =
      (!![(1 : ℝ); 1] 0 0 - colMean !![(1 : ℝ); 1] 0) / colStd !![(1 : ℝ); 1] 0 :=
    rfl
  rw [happ, hs, div_zero]

/-- C7: the prediction cell applied to a single-feature row against
four-feature training statistics. numpy broadcasting stretches the lone
value across all four features and a prediction is returned — no
dimension error. A two-feature row fails only with the generic
broadcasting `ValueError` (modelled `none`), not a dedicated
dimension-mismatch error. -/
theorem C7_predict_broadcasts_short_row :
    predict_new [0, 0, 0, 0] [1, 1, 1, 1] [0, 1, 1, 1, 1] [2] = some 8 ∧
    predict_new [0, 0, 0, 0] [1, 1, 1, 1] [0, 1, 1, 1, 1] [2, 3] = none := by
  constructor
  · show (do
      let centered ← broadcastOp (fun x v => x - v) [2] [0, 0, 0, 0]
      let norm ← broadcastOp (fun x v => x / v) centered [1, 1, 1, 1]
      let biased := 1 :: norm
      if biased.length = [(0 : ℝ), 1, 1, 1, 1].length then
        some (List.zipWith (fun x v => x * v) biased [0, 1, 1, 1, 1]).sum
      else
        none) = some 8
    norm_num [broadcastOp]
  · show (do
      let centered ← broadcastOp (fun x v => x - v) [2, 3] [0, 0, 0, 0]
      let norm ← broadcastOp (fun x v => x / v) centered [1, 1, 1, 1]
      let biased := 1 :: norm
      if biased.length = [(0 : ℝ), 1, 1, 1, 1].length then
        some (List.zipWith (fun x v => x * v) biased [0, 1, 1, 1, 1]).sum
      else
        none) = none
    norm_num [broadcastOp]

/-- C8 counterexample: a present file whose only data row begins with a
malformed numeric field is loaded successfully: the malformed field is
converted to `nan` (`none`) and a dataset is returned, against the
claimed `ParseError`. -/
theorem C8_malformed_field_loads :
    genfromtxt (some [[Field.num 9, Field.num 9], [Field.malformed, Field.num 2]]) =
      .ok [[none, some 2]] :=
  rfl

/-- C8 amended: the loader fails with `NotFoundError` exactly for an
absent file; a present file whose data rows all share the first data
row's field count is returned as a dataset with each field converted by
`fieldValue`, a malformed field becoming `nan` (`none`) instead of
raising. -/
theorem C8_loader_behavior (lines : List (List Field))
    (h : ((lines.drop 1).all fun r =>
        r.length = ((lines.drop 1).headD []).length) = true) :
    genfromtxt none = .error .notFound ∧
    genfromtxt (some lines) = .ok ((lines.drop 1).map fun r => r.map fieldValue) := by
  refine ⟨rfl, ?_⟩
  simp only [genfromtxt]
  rw [if_pos h]

theorem C8_loader_behavior_witness :
    ((([[Field.num 9], [Field.num 1]].drop 1).all fun r =>
        r.length = (([[Field.num 9], [Field.num 1]].drop 1).headD []).length) = true) ∧
    (genfromtxt none = .error .notFound ∧
      genfromtxt (some [[Field.num 9], [Field.num 1]]) =
        .ok (([[Field.num 9], [Field.num 1]].drop 1).map fun r => r.map fieldValue)) :=
  ⟨rfl, C8_loader_behavior [[Field.num 9], [Field.num 1]] rfl⟩

end LinRegNp
